import Mathlib

/-!
Shallow embedding of the kilo-cpp editor core (src/src/Editor.hpp) for
verification of its natural-language specification.  Rows, the highlight
scanner, the cross-row comment cascade, row-store operations, the search
callback, the coordinate conversions and the save/load text conversions are
translated from the C++ source; machine integers are modelled as Nat/Int with
explicit wrap where the source uses a fixed-width type (the uint8_t m_dirty
counter).
-/

namespace Kilo

/-- Highlight tags, from enum class EditorHighlight (include/kilo++/Editor.hpp). -/
inductive EditorHighlight where
  | NORMAL
  | COMMENT
  | ML_COMMENT
  | KEYWORD1
  | KEYWORD2
  | STRING
  | NUMBER
  | MATCH
deriving DecidableEq, Repr

/-- Syntax profile, from struct EditorSyntax.  The int32_t flags field is two
independent bits (HL_HIGHLIGHT_NUMBERS, HL_HIGHLIGHT_STRINGS), modelled as two
Booleans. -/
structure EditorSyntax where
  filetype : List Char
  keywords : List (List Char)
  scs : List Char
  mcs : List Char
  mce : List Char
  hlNumbers : Bool
  hlStrings : Bool
deriving DecidableEq, Repr

/-- Reading rendered[i] / row[i] on a std::string: index `size` yields the null
terminator; the editor never reads past that in a defined way, and the model
extends the null padding. -/
def charAt (s : List Char) (i : Nat) : Char := s.getD i (Char.ofNat 0)

/-- The C locale isspace set used by std::isspace. -/
def isCSpace (c : Char) : Bool :=
  c == ' ' || c == '\t' || c == '\n' || c == Char.ofNat 11 || c == Char.ofNat 12 || c == '\r'

/-- isSeparator (Editor.hpp lines 157-160): whitespace, the null terminator, or
one of the fixed punctuation characters. -/
def isSeparator (c : Char) : Bool :=
  isCSpace c || c == Char.ofNat 0 || ((",.()+-/*=~%<>[];").toList).contains c

/-- rendered.compare(pos, n, kw) == 0: the substring of length n starting at
pos equals kw (the substring is clamped to the string end, and equality then
forces the full kw to be present). -/
def matchAt (s : List Char) (i : Nat) (kw : List Char) : Bool :=
  decide ((s.drop i).take kw.length = kw)

/-- std::fill over hl positions [a, b), index-clamped to the list (every fill in
the source is in bounds; the clamp only makes the model total). -/
def fillSegGo (v : α) (a b : Nat) : Nat → List α → List α
  | _, [] => []
  | j, x :: xs => (if a ≤ j && j < b then v else x) :: fillSegGo v a b (j + 1) xs

/-- Fill positions [a, b) of a list with v, leaving the rest unchanged. -/
def fillSeg (l : List α) (a b : Nat) (v : α) : List α := fillSegGo v a b 0 l

/-- hl.resize(n, NORMAL): keeps the first n old entries, pads new entries with
NORMAL (std::vector::resize does not overwrite surviving entries). -/
def resizeHl (l : List EditorHighlight) (n : Nat) : List EditorHighlight :=
  l.take n ++ List.replicate (n - l.length) EditorHighlight.NORMAL

/-- Tab expansion from Editor::updateRow: a tab appends one space and then pads
with spaces until the length is a multiple of KILO_TAB_STOP = 8 (the final
`render += "\0"` in the source appends the empty C string, a no-op). -/
def renderText (row : List Char) : List Char :=
  row.foldl (fun r c => if c = '\t' then r ++ List.replicate (8 - r.length % 8) ' ' else r ++ [c]) []

/-- Mutable state of the while loop in Editor::updateSyntax. -/
structure ScanSt where
  i : Nat
  prevSep : Bool
  inString : Option Char
  inComment : Bool
  hl : List EditorHighlight
deriving DecidableEq, Repr

/-- Keyword secondary-class stripping (updateSyntax lines 303-307):
kw[klen-1] == '|' marks a KEYWORD2 entry and the marker is dropped before
comparison. -/
def kwStrip (kw : List Char) : Bool × List Char :=
  if kw.getLast? = some '|' then (true, kw.dropLast) else (false, kw)

/-- The keyword loop (updateSyntax lines 300-319): first keyword in configured
order whose stripped text matches at i and is followed by a separator wins;
returns its stripped length and class. -/
def findKw (rendered : List Char) (i : Nat) : List (List Char) → Option (Nat × Bool)
  | [] => none
  | kw :: rest =>
    let p := kwStrip kw
    if matchAt rendered i p.2 && isSeparator (charAt rendered (i + p.2.length)) then
      some (p.2.length, p.1)
    else
      findKw rendered i rest

open EditorHighlight in
/-- One-to-one translation of the while loop of Editor::updateSyntax
(lines 217-329).  Each C++ iteration either breaks (single-line comment),
or continues with i advanced, or continues with i fixed but prevSep turned
false (a zero-length keyword), so 2*len+2 fuel strictly dominates the loop;
running out of fuel returns the state reached. -/
def scanLoop (sy : EditorSyntax) (rendered : List Char) : Nat → ScanSt → ScanSt
  | 0, st => st
  | fuel + 1, st =>
    if st.i < rendered.length then
      let c := charAt rendered st.i
      let prevHl := if st.i > 0 then st.hl.getD (st.i - 1) NORMAL else NORMAL
      if sy.scs ≠ [] ∧ st.inString = none ∧ st.inComment = false ∧ matchAt rendered st.i sy.scs then
        -- isSLCommentStarted: fill to end of row, then break
        { st with hl := fillSeg st.hl st.i st.hl.length COMMENT }
      else if sy.mcs ≠ [] ∧ sy.mce ≠ [] ∧ st.inString = none ∧ st.inComment then
        let hl1 := fillSeg st.hl st.i (st.i + 1) ML_COMMENT
        if matchAt rendered st.i sy.mce then
          scanLoop sy rendered fuel
            { st with hl := fillSeg hl1 st.i (st.i + sy.mce.length) ML_COMMENT,
                      i := st.i + sy.mce.length, inComment := false, prevSep := true }
        else
          scanLoop sy rendered fuel { st with hl := hl1, i := st.i + 1 }
      else if sy.mcs ≠ [] ∧ sy.mce ≠ [] ∧ st.inString = none ∧ matchAt rendered st.i sy.mcs then
        scanLoop sy rendered fuel
          { st with hl := fillSeg st.hl st.i (st.i + sy.mcs.length) ML_COMMENT,
                    i := st.i + sy.mcs.length, inComment := true }
      else if sy.hlStrings ∧ st.inString.isSome then
        let hl1 := fillSeg st.hl st.i (st.i + 1) STRING
        if c = '\\' ∧ st.i + 1 < rendered.length then
          scanLoop sy rendered fuel
            { st with hl := fillSeg hl1 (st.i + 1) (st.i + 2) STRING, i := st.i + 2 }
        else
          scanLoop sy rendered fuel
            { st with hl := hl1,
                      inString := if st.inString = some c then none else st.inString,
                      prevSep := true, i := st.i + 1 }
      else if sy.hlStrings ∧ (c = '"' ∨ c = '\'') then
        scanLoop sy rendered fuel
          { st with hl := fillSeg st.hl st.i (st.i + 1) STRING,
                    inString := some c, i := st.i + 1 }
      else if sy.hlNumbers ∧
              ((c.isDigit ∧ (st.prevSep ∨ prevHl = NUMBER)) ∨ (c = '.' ∧ prevHl = NUMBER)) then
        scanLoop sy rendered fuel
          { st with hl := fillSeg st.hl st.i (st.i + 1) NUMBER, prevSep := false, i := st.i + 1 }
      else if st.prevSep then
        match findKw rendered st.i sy.keywords with
        | some kl =>
          scanLoop sy rendered fuel
            { st with hl := fillSeg st.hl st.i (st.i + kl.1) (if kl.2 then KEYWORD2 else KEYWORD1),
                      i := st.i + kl.1, prevSep := false }
        | none =>
          scanLoop sy rendered fuel { st with prevSep := isSeparator c, i := st.i + 1 }
      else
        scanLoop sy rendered fuel { st with prevSep := isSeparator c, i := st.i + 1 }
    else
      st

/-- Highlight a row's rendered text with a present syntax profile: resize the
old tags (stale entries survive), then run the scan with prev_sep = true, no
string, and the incoming continuation flag; result is the tag array and the
outgoing in_comment state. -/
def scanRow (sy : EditorSyntax) (rendered : List Char) (oldHl : List EditorHighlight)
    (inc : Bool) : List EditorHighlight × Bool :=
  let st := scanLoop sy rendered (2 * rendered.length + 2)
    { i := 0, prevSep := true, inString := none, inComment := inc,
      hl := resizeHl oldHl rendered.length }
  (st.hl, st.inComment)

/-- One text row, from struct EditorRow (include/kilo++/Editor.hpp). -/
structure EditorRow where
  idx : Nat
  row : List Char
  rendered : List Char
  hl : List EditorHighlight
  hl_open_comment : Bool
deriving DecidableEq, Repr

/-- The EditorRow(yindex) constructor: empty contents, comment flag false. -/
def mkEditorRow (yindex : Nat) : EditorRow :=
  { idx := yindex, row := [], rendered := [], hl := [], hl_open_comment := false }

/-- Default row for getD lookups (the source never performs such a lookup out
of bounds on the paths modelled here). -/
def dfltRow : EditorRow := mkEditorRow 0

/-- The freshly inserted row of Editor::insertRow (lines 445-447): the
EditorRow(yindex) constructor result with its row text then assigned s and
its idx assigned yindex. -/
def newRowAt (y : Nat) (s : List Char) : EditorRow :=
  { mkEditorRow y with row := s }

/-- One recomputation step of Editor::updateSyntax on the row at position y
(lines 201-332, the part before the cascade): the incoming continuation flag
is read from the previous row, the scan is run, and the result is the updated
row together with whether its outgoing continuation flag changed.  An
out-of-range y (which the source never passes) yields a dummy row and an
unchanged flag. -/
def cascStep (sy : EditorSyntax) (rows : List EditorRow) (y : Nat) : EditorRow × Bool :=
  match rows[y]? with
  | none => (dfltRow, false)
  | some r =>
    let inc : Bool := decide (y > 0) && (rows.getD (y - 1) dfltRow).hl_open_comment
    let sc := scanRow sy r.rendered r.hl inc
    ({ r with hl := sc.1, hl_open_comment := sc.2 }, decide (r.hl_open_comment ≠ sc.2))

/-- The recursive cascade of Editor::updateSyntax (lines 331-335): recompute
the row at y; when its outgoing continuation flag changed and a next row
exists, continue there, else stop.  The step count is bounded by the number
of rows from y on, which the wrapper passes as structural fuel. -/
def cascadeGo (sy : EditorSyntax) : Nat → List EditorRow → Nat → List EditorRow
  | 0, rows, _ => rows
  | fuel + 1, rows, y =>
    let p := cascStep sy rows y
    let rows1 := rows.set y p.1
    if p.2 = true ∧ y + 1 < rows.length then
      cascadeGo sy fuel rows1 (y + 1)
    else
      rows1

/-- Cascade entry point: fuel rows.length - y covers every step the C++
recursion can take (the guard y + 1 < rows.length stops it at the last row,
and List.set preserves the length along the way). -/
def cascadeFrom (sy : EditorSyntax) (rows : List EditorRow) (y : Nat) : List EditorRow :=
  cascadeGo sy (rows.length - y) rows y

/-- Editor::updateSyntax on the row at position y of the store, including the
cascade (lines 201-335).  The C++ uses erow.idx for the neighbour lookups,
which under the contiguity invariant maintained by insertRow/deleteRow equals
the row's position; the model indexes by position.  With no syntax profile
the function returns right after the resize, leaving the continuation flag
untouched and cascading nowhere. -/
def updateSyntaxAt (msyn : Option EditorSyntax) (rows : List EditorRow) (y : Nat) :
    List EditorRow :=
  match msyn with
  | none =>
    match rows[y]? with
    | none => rows
    | some r => rows.set y { r with hl := resizeHl r.hl r.rendered.length }
  | some sy => cascadeFrom sy rows y

/-- Editor::updateRow on the row at position y: recompute the rendered text by
tab expansion, then updateSyntax (lines 418-438). -/
def updateRowAt (msyn : Option EditorSyntax) (rows : List EditorRow) (y : Nat) :
    List EditorRow :=
  match rows[y]? with
  | none => rows
  | some r => updateSyntaxAt msyn (rows.set y { r with rendered := renderText r.row }) y

/-- The editor state components the row-store operations touch: the row store,
cursor, the uint8_t modification counter (a Nat kept below 256 by explicit
mod), and the active syntax profile. -/
structure EditorState where
  rows : List EditorRow
  cx : Nat
  cy : Nat
  dirty : Nat
  msyn : Option EditorSyntax
deriving DecidableEq, Repr

/-- Editor::insertRow (lines 440-455): fail without mutation when yindex is
outside [0, N]; otherwise insert a fresh row carrying the text at yindex, bump
the idx of every following row, recompute render+highlight for the new row,
and increment the modification counter (uint8_t, so mod 256). -/
def insertRow (st : EditorState) (yindex : Int) (s : List Char) : Bool × EditorState :=
  if yindex < 0 ∨ (st.rows.length : Int) < yindex then
    (false, st)
  else
    let y := yindex.toNat
    let rows1 := st.rows.take y ++ [newRowAt y s] ++ st.rows.drop y
    let rows2 := rows1.take (y + 1) ++ (rows1.drop (y + 1)).map (fun r => { r with idx := r.idx + 1 })
    (true, { st with rows := updateRowAt st.msyn rows2 y, dirty := (st.dirty + 1) % 256 })

/-- Editor::deleteRow (lines 457-467): no-op when yindex is outside [0, N);
otherwise erase the row, decrement the idx of every following row, and bump
the modification counter.  No re-highlight of the remaining rows happens. -/
def deleteRow (st : EditorState) (yindex : Int) : EditorState :=
  if yindex < 0 ∨ (st.rows.length : Int) ≤ yindex then
    st
  else
    let y := yindex.toNat
    let rows1 := st.rows.eraseIdx y
    let rows2 := rows1.take y ++ (rows1.drop y).map (fun r => { r with idx := r.idx - 1 })
    { st with rows := rows2, dirty := (st.dirty + 1) % 256 }

/-- Editor::insertCharIntoRow (lines 469-477) on the row at position y: an
out-of-range column is clamped to the row end, the character is inserted, the
row re-rendered and re-highlighted, and the counter bumped. -/
def insertCharIntoRowAt (st : EditorState) (y : Nat) (xat : Int) (c : Char) : EditorState :=
  match st.rows[y]? with
  | none => st
  | some r =>
    let a : Nat := if xat < 0 ∨ (r.row.length : Int) < xat then r.row.length else xat.toNat
    let rows1 := st.rows.set y { r with row := r.row.take a ++ c :: r.row.drop a }
    { st with rows := updateRowAt st.msyn rows1 y, dirty := (st.dirty + 1) % 256 }

/-- Editor::appendStringToRow (lines 479-484) on the row at position y. -/
def appendStringToRowAt (st : EditorState) (y : Nat) (s : List Char) : EditorState :=
  match st.rows[y]? with
  | none => st
  | some r =>
    let rows1 := st.rows.set y { r with row := r.row ++ s }
    { st with rows := updateRowAt st.msyn rows1 y, dirty := (st.dirty + 1) % 256 }

/-- Editor::deleteCharFromRow (lines 486-494) on the row at position y: silent
return when the column is out of [0, len); otherwise erase one character,
re-render/re-highlight and bump the counter. -/
def deleteCharFromRowAt (st : EditorState) (y : Nat) (xat : Int) : EditorState :=
  match st.rows[y]? with
  | none => st
  | some r =>
    if xat < 0 ∨ (r.row.length : Int) ≤ xat then st
    else
      let rows1 := st.rows.set y { r with row := r.row.eraseIdx xat.toNat }
      { st with rows := updateRowAt st.msyn rows1 y, dirty := (st.dirty + 1) % 256 }

/-- Editor::deleteChar (lines 531-552): no-op past the last row or at the very
start of the document; inside a row delete the character left of the cursor;
at column 0 of a later row remember the previous row's length, append this
row's text to the previous row, delete this row, and move the cursor up. -/
def deleteChar (st : EditorState) : EditorState :=
  if st.cy = st.rows.length then st
  else if st.cx = 0 ∧ st.cy = 0 then st
  else if 0 < st.cx then
    let st1 := deleteCharFromRowAt st st.cy ((st.cx : Int) - 1)
    { st1 with cx := st.cx - 1 }
  else
    let prevLen := (st.rows.getD (st.cy - 1) dfltRow).row.length
    let curRow := (st.rows.getD st.cy dfltRow).row
    let st1 := appendStringToRowAt st (st.cy - 1) curRow
    let st2 := deleteRow st1 (st.cy : Int)
    { st2 with cx := prevLen, cy := st.cy - 1 }

/-- Editor::convertRowCxToRx (lines 389-399): walk the first cx characters,
a tab advances the render column to the next multiple of 8, any other
character (including the null padding past the row end) advances it by one.
No clamping of cx happens in the source. -/
def convertRowCxToRx (row : List Char) (cx : Nat) : Nat :=
  (List.range cx).foldl (fun rx i => if charAt row i = '\t' then rx + (8 - rx % 8) else rx + 1) 0

/-- Editor::convertRowRxToCx (lines 401-416): walk the raw characters
accumulating the render column; return the first buffer column whose
cumulative render column exceeds rx, or the row length when none does. -/
def rxToCxGo (rx : Nat) : List Char → Nat → Nat → Nat
  | [], _, cx => cx
  | c :: rest, curRx, cx =>
    let cur1 := if c = '\t' then curRx + (8 - curRx % 8) else curRx + 1
    if rx < cur1 then cx else rxToCxGo rx rest cur1 (cx + 1)

/-- Wrapper starting the walk of convertRowRxToCx at column 0. -/
def convertRowRxToCx (row : List Char) (rx : Nat) : Nat := rxToCxGo rx row 0 0

/-- Editor::convertRowsToString (lines 556-563): every row's raw text followed
by a newline, concatenated in order. -/
def convertRowsToString : List EditorRow → List Char
  | [] => []
  | r :: rest => r.row ++ '\n' :: convertRowsToString rest

/-- std::getline splitting as used by Editor::open: lines are the maximal
'\n'-free segments, and a final segment is a line only when the text does not
end in a newline (getline fails at immediate EOF). -/
def splitOnNl : List Char → List (List Char)
  | [] => []
  | c :: cs =>
    if c = '\n' then
      [] :: splitOnNl cs
    else
      match splitOnNl cs with
      | [] => [[c]]
      | l :: ls => (c :: l) :: ls

/-- The trailing-terminator strip of Editor::open (lines 585-586): drop '\n'
and '\r' characters from the end of the line. -/
def stripTrailing (line : List Char) : List Char :=
  (line.reverse.dropWhile (fun c => c == '\n' || c == '\r')).reverse

/-- The per-line seeding of Editor::open (lines 582-589): split the file text
on newlines and strip each line's trailing terminators. -/
def openLines (content : List Char) : List (List Char) :=
  (splitOnNl content).map stripTrailing

/-- render.find(query): index of the first occurrence of query as a plain
case-sensitive substring, none if absent; the empty query matches at 0. -/
def strFind (s q : List Char) : Option Nat :=
  (List.range (s.length + 1 - q.length)).find? (fun i => matchAt s i q)

/-- std::copy(src.begin(), src.end(), dest.begin()): overwrite the front of
dest with src, keeping dest's length (the source always restores into a tag
array of the saved length). -/
def copyOnto (dest src : List EditorHighlight) : List EditorHighlight :=
  src.take dest.length ++ dest.drop src.length

/-- The editor state visible to Editor::findCallback together with the
function-local static variables last_match, direction, saved_hl_line and
saved_hl (lines 624-695). -/
structure FindSession where
  rows : List EditorRow
  cx : Nat
  cy : Nat
  rowoff : Nat
  lastMatch : Int
  direction : Int
  savedHlLine : Nat
  savedHl : List EditorHighlight
deriving DecidableEq, Repr

/-- The search loop of findCallback (lines 665-694).  The C++ iterates the
range-for variable row over m_rows from the front (k counts its position)
while separately stepping the wrapped index current by direction; on the first
sequential row whose rendered text contains the query it writes the cursor and
snapshot bookkeeping against index current but takes the offset, snapshot tags
and MATCH overlay from the sequential row, then returns. -/
def findLoop (query : List Char) : Nat → Nat → Int → FindSession → FindSession
  | 0, _, _, s => s
  | steps + 1, k, current, s =>
    let n : Int := (s.rows.length : Int)
    let cur1 := current + s.direction
    let cur2 := if cur1 = -1 then n - 1 else if cur1 = n then 0 else cur1
    let row := s.rows.getD k dfltRow
    match strFind row.rendered query with
    | some off =>
      let curN := cur2.toNat
      let target := s.rows.getD curN dfltRow
      let matchEnd := if row.hl.length < off + query.length then row.hl.length
                      else off + query.length
      { s with
        lastMatch := cur2,
        cy := curN,
        cx := convertRowRxToCx target.row off,
        rowoff := s.rows.length,
        savedHlLine := curN,
        savedHl := row.hl,
        rows := s.rows.set k { row with hl := fillSeg row.hl off matchEnd EditorHighlight.MATCH } }
    | none => findLoop query steps (k + 1) cur2 s

/-- Key codes used by findCallback: '\r' = 13, escape = 27, and the EditorKey
symbolic codes ARROW_LEFT = 1000, ARROW_RIGHT = 1001, ARROW_UP = 1002,
ARROW_DOWN = 1003 (TerminalManager.hpp). -/
def keyEnter : Int := 13

/-- Escape key code. -/
def keyEsc : Int := 27

/-- ARROW_LEFT key code. -/
def keyArrowLeft : Int := 1000

/-- ARROW_RIGHT key code. -/
def keyArrowRight : Int := 1001

/-- ARROW_UP key code. -/
def keyArrowUp : Int := 1002

/-- ARROW_DOWN key code. -/
def keyArrowDown : Int := 1003

/-- The snapshot-restore block at the top of Editor::findCallback
(lines 632-636): when a saved snapshot exists, copy the saved tags back onto
the saved row and clear the snapshot. -/
def restoreSavedHl (s : FindSession) : FindSession :=
  if s.savedHl ≠ [] then
    let r := s.rows.getD s.savedHlLine dfltRow
    { s with rows := s.rows.set s.savedHlLine { r with hl := copyOnto r.hl s.savedHl },
             savedHl := [] }
  else s

/-- Editor::findCallback (lines 624-695): restore the saved highlight snapshot
if one exists; Enter/Escape reset the session and stop; arrow keys set the
direction and any other key resets last_match and forces forward; then run the
search loop over at most one sweep of the rows. -/
def findCallback (s : FindSession) (query : List Char) (key : Int) : FindSession :=
  let s1 := restoreSavedHl s
  if key = keyEnter ∨ key = keyEsc then
    { s1 with lastMatch := -1, direction := 1 }
  else
    let s2 :=
      if key = keyArrowRight ∨ key = keyArrowDown then { s1 with direction := 1 }
      else if key = keyArrowLeft ∨ key = keyArrowUp then { s1 with direction := -1 }
      else { s1 with lastMatch := -1, direction := 1 }
    let s3 := if s2.lastMatch = -1 then { s2 with direction := 1 } else s2
    findLoop query s3.rows.length 0 s3.lastMatch s3

/-- The "(modified)" fragment of Editor::drawStatusBar (line 827): shown
exactly when the dirty counter is nonzero. -/
def modifiedIndicator (dirty : Nat) : List Char :=
  if dirty ≠ 0 then ("(modified)").toList else []

/-- The quit guard of Editor::processKeypress (line 1008): Ctrl-Q warns
instead of quitting exactly when the dirty counter is nonzero and quit_times
is still positive. -/
def quitGuardActive (dirty : Nat) (quitTimes : Nat) : Bool :=
  decide (dirty ≠ 0) && decide (0 < quitTimes)

/-- A fresh editor session: no rows, cursor at the origin, clean counter, no
syntax profile. -/
def emptyEditor : EditorState :=
  { rows := [], cx := 0, cy := 0, dirty := 0, msyn := none }

/-- Seeding of the row store by Editor::open: insertRow(m_rows.size(), line)
for each stripped line. -/
def seedRows (msyn : Option EditorSyntax) (lines : List (List Char)) : EditorState :=
  lines.foldl (fun st l => (insertRow st (st.rows.length : Int) l).2)
    { emptyEditor with msyn := msyn }

/-- The C-language syntax profile from HLDB (Editor.hpp lines 130-141). -/
def cSyntax : EditorSyntax :=
  { filetype := ("c").toList,
    keywords := [("switch").toList, ("if").toList, ("while").toList, ("for").toList,
      ("break").toList, ("continue").toList, ("return").toList, ("else").toList,
      ("struct").toList, ("union").toList, ("typedef").toList, ("static").toList,
      ("const").toList, ("enum").toList, ("class").toList, ("case").toList,
      ("int|").toList, ("long|").toList, ("double|").toList, ("float|").toList,
      ("char|").toList, ("unsigned|").toList, ("signed|").toList, ("auto|").toList,
      ("void|").toList],
    scs := ("//").toList,
    mcs := ("/*").toList,
    mce := ("*/").toList,
    hlNumbers := true,
    hlStrings := true }

/-- Pointwise relation between a tag array before and after scan writes: every
position either kept its old tag or now holds a tag the scan wrote, which is
never NORMAL. -/
def NoNewNormal (h0 h1 : List EditorHighlight) : Prop :=
  ∀ j, h1.getD j EditorHighlight.NORMAL = h0.getD j EditorHighlight.NORMAL
    ∨ h1.getD j EditorHighlight.NORMAL ≠ EditorHighlight.NORMAL

/-- The recomputed row the claim C4 cascade produces at position j of the
result res: the original row of rows at j, re-scanned with the incoming flag
propagated from the already-final previous row of res. -/
def propagatedAt (sy : EditorSyntax) (rows res : List EditorRow) (j : Nat) : Prop :=
  ∃ r, rows[j]? = some r ∧
    res[j]? = some
      (let inc : Bool := decide (j > 0) && (res.getD (j - 1) dfltRow).hl_open_comment
       let sc := scanRow sy r.rendered r.hl inc
       { r with hl := sc.1, hl_open_comment := sc.2 })

/-- The cascade behaviour claim C4 asserts of updateSyntax at row y: when the
recomputation leaves row y's outgoing continuation flag unchanged, only row y
is touched; when the flag changes, exactly the contiguous block of rows from y
to some k is re-highlighted, each with the incoming flag propagated from the
already-recomputed previous row, every row outside [y, k] is unchanged, the
flag of every re-highlighted row before k changed, and k is the last row or
the first whose flag did not change. -/
def CascadeSpec (sy : EditorSyntax) (rows : List EditorRow) (y : Nat) : Prop :=
  ((cascStep sy rows y).2 = false →
      updateSyntaxAt (some sy) rows y = rows.set y (cascStep sy rows y).1
    ∧ ∀ j, j ≠ y → (updateSyntaxAt (some sy) rows y)[j]? = rows[j]?)
  ∧ ((cascStep sy rows y).2 = true →
      ∃ k, y ≤ k ∧ k < rows.length
        ∧ (∀ j, j < y ∨ k < j → (updateSyntaxAt (some sy) rows y)[j]? = rows[j]?)
        ∧ (∀ j, y ≤ j → j ≤ k → propagatedAt sy rows (updateSyntaxAt (some sy) rows y) j)
        ∧ (k = rows.length - 1
            ∨ ((updateSyntaxAt (some sy) rows y).getD k dfltRow).hl_open_comment
              = (rows.getD k dfltRow).hl_open_comment)
        ∧ (∀ j, y ≤ j → j < k →
            ((updateSyntaxAt (some sy) rows y).getD j dfltRow).hl_open_comment
              ≠ (rows.getD j dfltRow).hl_open_comment))

/-- The length invariant of the spec: every row's tag array is as long as its
rendered text. -/
def RowsOK (rows : List EditorRow) : Prop :=
  ∀ r ∈ rows, r.hl.length = r.rendered.length

instance (rows : List EditorRow) : Decidable (RowsOK rows) := by
  unfold RowsOK; infer_instance

/-- The idx fields are the contiguous sequence 0..N-1 (checked from position
k on by ctg). -/
def ctg : Nat → List Nat → Bool
  | _, [] => true
  | k, n :: rest => n == k && ctg (k + 1) rest

/-- Row indices are contiguous 0..N-1. -/
def idxContiguous (rows : List EditorRow) : Bool :=
  ctg 0 (rows.map (fun r => r.idx))

/-- Syntax profile of the spec scenario for keyword-boundary matching:
keyword list ["if", "int|"], nothing else enabled. -/
def kwScenarioSyntax : EditorSyntax :=
  { filetype := [], keywords := [("if").toList, ("int|").toList],
    scs := [], mcs := [], mce := [], hlNumbers := false, hlStrings := false }

/-- Minimal profile with only number highlighting, for stale-tag scenarios. -/
def numOnlySyntax : EditorSyntax :=
  { filetype := [], keywords := [], scs := [], mcs := [], mce := [],
    hlNumbers := true, hlStrings := false }

/-- A one-row document "123" under the number-only profile. -/
def staleDoc : EditorState :=
  (insertRow { emptyEditor with msyn := some numOnlySyntax } 0 (("123").toList)).2

/-- The same document after deleting the '1' and inserting 'a' at column 0:
the raw text is now "a23" and the rendered length never changed. -/
def staleEdited : EditorState :=
  insertCharIntoRowAt (deleteCharFromRowAt staleDoc 0 0) 0 0 'a'

/-- A one-row document "a23" created fresh under the same profile. -/
def freshDoc : EditorState :=
  (insertRow { emptyEditor with msyn := some numOnlySyntax } 0 (("a23").toList)).2

/-- Two-row document ["foo", "xfoo"] (no profile) for the search scenario. -/
def searchDoc : EditorState :=
  seedRows none [("foo").toList, ("xfoo").toList]

/-- Search session over searchDoc in the state right after a first match on
row 0: lastMatch = 0, forward direction, no pending snapshot. -/
def searchSession : FindSession :=
  { rows := searchDoc.rows, cx := 0, cy := 0, rowoff := 0,
    lastMatch := 0, direction := 1, savedHlLine := 0, savedHl := [] }

/-- The session after pressing ARROW_DOWN with query "foo". -/
def searchResult : FindSession :=
  findCallback searchSession (("foo").toList) keyArrowDown

/-- A three-row C document with an unterminated multi-line comment opened on
row 0 and closed on row 1, for cascade scenarios. -/
def mlDoc : EditorState :=
  seedRows (some cSyntax) [("int a; /* x").toList, ("y */ b").toList, ("tail").toList]

theorem fillSegGo_length (v : α) (a b : Nat) :
    ∀ (l : List α) (j : Nat), (fillSegGo v a b j l).length = l.length := by
  intro l
  induction l with
  | nil => intro j; rfl
  | cons x xs ih => intro j; simp [fillSegGo, ih]

theorem fillSeg_length (l : List α) (a b : Nat) (v : α) :
    (fillSeg l a b v).length = l.length := fillSegGo_length v a b l 0

theorem resizeHl_length (l : List EditorHighlight) (n : Nat) :
    (resizeHl l n).length = n := by
  simp [resizeHl]; omega

theorem copyOnto_length (dest src : List EditorHighlight) :
    (copyOnto dest src).length = dest.length := by
  simp [copyOnto]; omega

theorem fillSegGo_getD_or (v : α) (a b : Nat) (d : α) :
    ∀ (l : List α) (j k : Nat),
      (fillSegGo v a b j l).getD k d = l.getD k d ∨ (fillSegGo v a b j l).getD k d = v := by
  intro l
  induction l with
  | nil => intro j k; left; rfl
  | cons x xs ih =>
    intro j k
    cases k with
    | zero =>
      simp only [fillSegGo, List.getD_cons_zero]
      by_cases h : (a ≤ j && j < b) = true
      · right; simp [h]
      · left; simp [h]
    | succ k => simpa [fillSegGo] using ih (j + 1) k

theorem fillSeg_getD_or (l : List α) (a b : Nat) (v d : α) (k : Nat) :
    (fillSeg l a b v).getD k d = l.getD k d ∨ (fillSeg l a b v).getD k d = v :=
  fillSegGo_getD_or v a b d l 0 k

theorem scanLoop_hl_length (sy : EditorSyntax) (rendered : List Char) :
    ∀ (fuel : Nat) (st : ScanSt), (scanLoop sy rendered fuel st).hl.length = st.hl.length := by
  intro fuel
  induction fuel with
  | zero => intro st; rfl
  | succ n ih =>
    intro st
    simp only [scanLoop]
    repeat' split
    all_goals simp [ih, fillSeg_length]

theorem scanRow_length (sy : EditorSyntax) (rendered : List Char)
    (oldHl : List EditorHighlight) (inc : Bool) :
    (scanRow sy rendered oldHl inc).1.length = rendered.length := by
  simp [scanRow, scanLoop_hl_length, resizeHl_length]

theorem nnRefl (l : List EditorHighlight) : NoNewNormal l l :=
  fun _ => Or.inl rfl

theorem nnTrans {a b c : List EditorHighlight}
    (h1 : NoNewNormal a b) (h2 : NoNewNormal b c) : NoNewNormal a c := by
  intro j
  rcases h2 j with h | h
  · rcases h1 j with h' | h'
    · left; rw [h, h']
    · right; rw [h]; exact h'
  · right; exact h

theorem nnFill {v : EditorHighlight} (hv : v ≠ EditorHighlight.NORMAL)
    (l : List EditorHighlight) (a b : Nat) : NoNewNormal l (fillSeg l a b v) := by
  intro j
  rcases fillSeg_getD_or l a b v EditorHighlight.NORMAL j with h | h
  · left; exact h
  · right; rw [h]; exact hv

theorem scanLoop_normal_origin (sy : EditorSyntax) (rendered : List Char) :
    ∀ (fuel : Nat) (st : ScanSt), NoNewNormal st.hl (scanLoop sy rendered fuel st).hl := by
  intro fuel
  induction fuel with
  | zero => intro st; exact nnRefl _
  | succ n ih =>
    intro st
    simp only [scanLoop]
    repeat' split
    all_goals
      first
      | exact nnRefl _
      | exact ih _
      | exact nnFill (by decide) _ _ _
      | exact nnTrans (nnFill (by decide) _ _ _) (ih _)
      | exact nnTrans (nnTrans (nnFill (by decide) _ _ _) (nnFill (by decide) _ _ _)) (ih _)

theorem rowsOK_get {rows : List EditorRow} (h : RowsOK rows) {j : Nat} {r : EditorRow}
    (hj : rows[j]? = some r) : r.hl.length = r.rendered.length :=
  h r (List.mem_iff_getElem?.mpr ⟨j, hj⟩)

theorem rowsOK_of_get {rows : List EditorRow}
    (h : ∀ (j : Nat) (r : EditorRow), rows[j]? = some r → r.hl.length = r.rendered.length) :
    RowsOK rows := by
  intro r hr
  obtain ⟨j, hj⟩ := List.mem_iff_getElem?.mp hr
  exact h j r hj

theorem getD_hl_ok {rows : List EditorRow} (h : RowsOK rows) (k : Nat) :
    (rows.getD k dfltRow).hl.length = (rows.getD k dfltRow).rendered.length := by
  rw [List.getD_eq_getElem?_getD]
  cases hk : rows[k]? with
  | none => rfl
  | some r => exact rowsOK_get h hk

theorem cascadeGo_ok (sy : EditorSyntax) :
    ∀ (fuel : Nat) (rows : List EditorRow) (y : Nat),
      rows.length ≤ y + fuel →
      (∀ (j : Nat) (r : EditorRow), rows[j]? = some r → j ≠ y →
        r.hl.length = r.rendered.length) →
      ∀ (j : Nat) (r : EditorRow), (cascadeGo sy fuel rows y)[j]? = some r →
        r.hl.length = r.rendered.length := by
  intro fuel
  induction fuel with
  | zero =>
    intro rows y hfuel h j r hj
    simp only [cascadeGo] at hj
    refine h j r hj ?_
    have := (List.getElem?_eq_some.mp hj).1
    omega
  | succ n ih =>
    intro rows y hfuel h j r hj
    simp only [cascadeGo] at hj
    cases hy : rows[y]? with
    | none =>
      have hylen : rows.length ≤ y := by
        by_contra hc
        rw [List.getElem?_eq_none_iff] at hy
        omega
      simp only [cascStep, hy] at hj
      split at hj
      · rename_i hcond
        exact absurd hcond.2 (by omega)
      · rw [List.set_eq_of_length_le hylen] at hj
        refine h j r hj ?_
        have := (List.getElem?_eq_some.mp hj).1
        omega
    | some r0 =>
      have hylen : y < rows.length := (List.getElem?_eq_some.mp hy).1
      simp only [cascStep, hy] at hj
      split at hj
      · refine ih _ (y + 1) (by simp [List.length_set]; omega) ?_ j r hj
        intro j' r' hj' hne
        by_cases hjy : j' = y
        · subst hjy
          rw [List.getElem?_set_self hylen] at hj'
          cases hj'
          simp [scanRow_length]
        · rw [List.getElem?_set_ne (Ne.symm hjy)] at hj'
          exact h j' r' hj' hjy
      · by_cases hjy : j = y
        · subst hjy
          rw [List.getElem?_set_self hylen] at hj
          cases hj
          simp [scanRow_length]
        · rw [List.getElem?_set_ne (Ne.symm hjy)] at hj
          exact h j r hj hjy

theorem updateSyntaxAt_ok (msyn : Option EditorSyntax) (rows : List EditorRow) (y : Nat)
    (h : ∀ (j : Nat) (r : EditorRow), rows[j]? = some r → j ≠ y →
      r.hl.length = r.rendered.length) :
    RowsOK (updateSyntaxAt msyn rows y) := by
  refine rowsOK_of_get ?_
  intro j r hj
  cases msyn with
  | none =>
    simp only [updateSyntaxAt] at hj
    cases hy : rows[y]? with
    | none =>
      rw [hy] at hj
      refine h j r hj ?_
      intro he
      subst he
      rw [hy] at hj
      cases hj
    | some r0 =>
      have hylen : y < rows.length := (List.getElem?_eq_some.mp hy).1
      rw [hy] at hj
      by_cases hjy : j = y
      · subst hjy
        rw [List.getElem?_set_self hylen] at hj
        cases hj
        simp [resizeHl_length]
      · rw [List.getElem?_set_ne (Ne.symm hjy)] at hj
        exact h j r hj hjy
  | some sy =>
    exact cascadeGo_ok sy (rows.length - y) rows y (by omega) h j r hj

theorem updateRowAt_ok (msyn : Option EditorSyntax) (rows : List EditorRow) (y : Nat)
    (h : ∀ (j : Nat) (r : EditorRow), rows[j]? = some r → j ≠ y →
      r.hl.length = r.rendered.length) :
    RowsOK (updateRowAt msyn rows y) := by
  unfold updateRowAt
  cases hy : rows[y]? with
  | none => exact rowsOK_of_get fun j r hj => h j r hj (by
      intro he; subst he; rw [hy] at hj; cases hj)
  | some r0 =>
    refine updateSyntaxAt_ok msyn _ y ?_
    intro j r hj hjy
    rw [List.getElem?_set_ne (Ne.symm hjy)] at hj
    exact h j r hj hjy

theorem updateRowAt_ok_of_rowsOK (msyn : Option EditorSyntax) (rows : List EditorRow) (y : Nat)
    (h : RowsOK rows) : RowsOK (updateRowAt msyn rows y) :=
  updateRowAt_ok msyn rows y (fun _ _ hj _ => rowsOK_get h hj)

theorem insertRow_ok (st : EditorState) (yi : Int) (s : List Char) (h : RowsOK st.rows) :
    RowsOK (insertRow st yi s).2.rows := by
  unfold insertRow
  split
  · exact h
  · refine updateRowAt_ok_of_rowsOK _ _ _ ?_
    intro r hr
    rcases List.mem_append.mp hr with hr | hr
    · have hr' := List.mem_of_mem_take hr
      rcases List.mem_append.mp hr' with hr' | hr'
      · rcases List.mem_append.mp hr' with hr' | hr'
        · exact h r (List.mem_of_mem_take hr')
        · rcases List.mem_singleton.mp hr' with rfl
          rfl
      · exact h r (List.mem_of_mem_drop hr')
    · obtain ⟨r0, hr0, rfl⟩ := List.mem_map.mp hr
      have hr0' := List.mem_of_mem_drop hr0
      rcases List.mem_append.mp hr0' with hr' | hr'
      · rcases List.mem_append.mp hr' with hr' | hr'
        · exact h r0 (List.mem_of_mem_take hr')
        · rcases List.mem_singleton.mp hr' with rfl
          rfl
      · exact h r0 (List.mem_of_mem_drop hr')

theorem mem_of_mem_eraseIdx {r : α} {l : List α} {y : Nat} (hr : r ∈ l.eraseIdx y) : r ∈ l := by
  rw [List.eraseIdx_eq_take_drop_succ] at hr
  rcases List.mem_append.mp hr with hr | hr
  · exact List.mem_of_mem_take hr
  · exact List.mem_of_mem_drop hr

theorem deleteRow_ok (st : EditorState) (yi : Int) (h : RowsOK st.rows) :
    RowsOK (deleteRow st yi).rows := by
  unfold deleteRow
  split
  · exact h
  · intro r hr
    rcases List.mem_append.mp hr with hr | hr
    · exact h r (mem_of_mem_eraseIdx (List.mem_of_mem_take hr))
    · obtain ⟨r0, hr0, rfl⟩ := List.mem_map.mp hr
      exact h r0 (mem_of_mem_eraseIdx (List.mem_of_mem_drop hr0))

theorem rowsOK_set_row {rows : List EditorRow} (h : RowsOK rows) {y : Nat} {r0 : EditorRow}
    (hy : rows[y]? = some r0) (newRaw : List Char) :
    RowsOK (rows.set y { r0 with row := newRaw }) := by
  intro r hr
  rcases List.mem_or_eq_of_mem_set hr with hr | rfl
  · exact h r hr
  · show r0.hl.length = r0.rendered.length
    exact rowsOK_get h hy

theorem insertCharIntoRowAt_ok (st : EditorState) (y : Nat) (xat : Int) (c : Char)
    (h : RowsOK st.rows) : RowsOK (insertCharIntoRowAt st y xat c).rows := by
  unfold insertCharIntoRowAt
  cases hy : st.rows[y]? with
  | none => exact h
  | some r0 => exact updateRowAt_ok_of_rowsOK _ _ _ (rowsOK_set_row h hy _)

theorem appendStringToRowAt_ok (st : EditorState) (y : Nat) (s : List Char)
    (h : RowsOK st.rows) : RowsOK (appendStringToRowAt st y s).rows := by
  unfold appendStringToRowAt
  cases hy : st.rows[y]? with
  | none => exact h
  | some r0 => exact updateRowAt_ok_of_rowsOK _ _ _ (rowsOK_set_row h hy _)

theorem deleteCharFromRowAt_ok (st : EditorState) (y : Nat) (xat : Int)
    (h : RowsOK st.rows) : RowsOK (deleteCharFromRowAt st y xat).rows := by
  unfold deleteCharFromRowAt
  cases hy : st.rows[y]? with
  | none => exact h
  | some r0 =>
    dsimp only
    by_cases hx : xat < 0 ∨ (r0.row.length : Int) ≤ xat
    · rw [if_pos hx]; exact h
    · rw [if_neg hx]
      exact updateRowAt_ok_of_rowsOK st.msyn _ y (rowsOK_set_row h hy _)

theorem deleteChar_ok (st : EditorState) (h : RowsOK st.rows) :
    RowsOK (deleteChar st).rows := by
  unfold deleteChar
  split
  · exact h
  · split
    · exact h
    · split
      · exact deleteCharFromRowAt_ok st st.cy _ h
      · exact deleteRow_ok _ _ (appendStringToRowAt_ok st _ _ h)

theorem rowsOK_set_hl {rows : List EditorRow} (h : RowsOK rows) {y : Nat} {r0 : EditorRow}
    (hr0 : r0.hl.length = r0.rendered.length) (newHl : List EditorHighlight)
    (hlen : newHl.length = r0.hl.length) :
    RowsOK (rows.set y { r0 with hl := newHl }) := by
  intro r hr
  rcases List.mem_or_eq_of_mem_set hr with hr | rfl
  · exact h r hr
  · simpa [hlen] using hr0

theorem findLoop_ok (query : List Char) :
    ∀ (steps k : Nat) (cur : Int) (s : FindSession), RowsOK s.rows →
      RowsOK (findLoop query steps k cur s).rows := by
  intro steps
  induction steps with
  | zero => intro k cur s h; exact h
  | succ n ih =>
    intro k cur s h
    simp only [findLoop]
    split
    · exact rowsOK_set_hl h (getD_hl_ok h k) _ (fillSeg_length ..)
    · exact ih _ _ s h

theorem dispatch_rows_eq (s1 : FindSession) (key : Int) :
    ((if key = keyArrowRight ∨ key = keyArrowDown then { s1 with direction := 1 }
      else if key = keyArrowLeft ∨ key = keyArrowUp then { s1 with direction := -1 }
      else { s1 with lastMatch := -1, direction := 1 }) : FindSession).rows = s1.rows := by
  split
  · rfl
  · split <;> rfl

theorem fixdir_rows_eq (s2 : FindSession) :
    ((if s2.lastMatch = -1 then { s2 with direction := 1 } else s2) : FindSession).rows
      = s2.rows := by
  split <;> rfl

theorem restore_rows_ok (s : FindSession) (h : RowsOK s.rows) :
    RowsOK (restoreSavedHl s).rows := by
  unfold restoreSavedHl
  split
  · exact rowsOK_set_hl h (getD_hl_ok h _) _ (copyOnto_length ..)
  · exact h

theorem findCallback_ok (s : FindSession) (query : List Char) (key : Int)
    (h : RowsOK s.rows) : RowsOK (findCallback s query key).rows := by
  simp only [findCallback]
  split
  · exact restore_rows_ok s h
  · refine findLoop_ok _ _ _ _ _ ?_
    rw [fixdir_rows_eq, dispatch_rows_eq]
    exact restore_rows_ok s h

/-- C1: every mutating operation of the row store — insertRow, deleteRow,
insertCharIntoRow, appendStringToRow, deleteCharFromRow, deleteChar, the
updateSyntax cascade, and the search callback with its MATCH overlay and
snapshot restore — preserves the invariant that every row's highlight-tag
array is exactly as long as its rendered text. -/
theorem C1_hl_length_invariant (st : EditorState) (fs : FindSession) (yi : Int)
    (s : List Char) (y : Nat) (xat : Int) (c : Char) (q : List Char) (key : Int)
    (hst : RowsOK st.rows) (hfs : RowsOK fs.rows) :
    RowsOK (insertRow st yi s).2.rows ∧
    RowsOK (deleteRow st yi).rows ∧
    RowsOK (insertCharIntoRowAt st y xat c).rows ∧
    RowsOK (appendStringToRowAt st y s).rows ∧
    RowsOK (deleteCharFromRowAt st y xat).rows ∧
    RowsOK (deleteChar st).rows ∧
    RowsOK (updateSyntaxAt st.msyn st.rows y) ∧
    RowsOK (findCallback fs q key).rows :=
  ⟨insertRow_ok st yi s hst, deleteRow_ok st yi hst,
   insertCharIntoRowAt_ok st y xat c hst, appendStringToRowAt_ok st y s hst,
   deleteCharFromRowAt_ok st y xat hst, deleteChar_ok st hst,
   updateSyntaxAt_ok st.msyn st.rows y (fun _ _ hj _ => rowsOK_get hst hj),
   findCallback_ok fs q key hfs⟩

/-- Witness for C1 at a concrete two-row document and search session. -/
theorem C1_hl_length_invariant_witness :
    RowsOK (insertRow searchDoc 1 (("zz").toList)).2.rows ∧
    RowsOK (deleteRow searchDoc 1).rows ∧
    RowsOK (insertCharIntoRowAt searchDoc 0 1 'q').rows ∧
    RowsOK (appendStringToRowAt searchDoc 0 (("zz").toList)).rows ∧
    RowsOK (deleteCharFromRowAt searchDoc 0 1).rows ∧
    RowsOK (deleteChar searchDoc).rows ∧
    RowsOK (updateSyntaxAt searchDoc.msyn searchDoc.rows 0) ∧
    RowsOK (findCallback searchSession (("foo").toList) keyArrowDown).rows :=
  C1_hl_length_invariant searchDoc searchSession 1 (("zz").toList) 0 1 'q'
    (("foo").toList) keyArrowDown (by decide) (by decide)

theorem splitOnNl_append_nl (t : List Char) :
    ∀ l : List Char, '\n' ∉ l → splitOnNl (l ++ '\n' :: t) = l :: splitOnNl t := by
  intro l
  induction l with
  | nil => intro _; simp [splitOnNl]
  | cons c cs ih =>
    intro hnl
    have hc : ¬ c = '\n' := fun he => hnl (he ▸ List.mem_cons_self c cs)
    have hcs : '\n' ∉ cs := fun hm => hnl (List.mem_cons_of_mem c hm)
    simp only [List.cons_append, splitOnNl, if_neg hc]
    rw [show cs.append ('\n' :: t) = cs ++ '\n' :: t from rfl, ih hcs]

/-- C8 (amended): for every row store in which no row's raw content contains a
newline and no row's raw content carries trailing newline/carriage-return
characters, joining all rows with a trailing newline (convertRowsToString, as
save does) and re-splitting with per-line terminator stripping (openLines, as
open does) reproduces exactly the original per-row raw contents in order. -/
theorem C8_amended_round_trip :
    ∀ rows : List EditorRow,
      (∀ r ∈ rows, '\n' ∉ r.row ∧ stripTrailing r.row = r.row) →
      openLines (convertRowsToString rows) = rows.map (fun r => r.row) := by
  intro rows
  induction rows with
  | nil => intro _; rfl
  | cons r rest ih =>
    intro h
    have hr := h r (List.mem_cons_self r rest)
    have hrest : ∀ r0 ∈ rest, '\n' ∉ r0.row ∧ stripTrailing r0.row = r0.row :=
      fun r0 hm => h r0 (List.mem_cons_of_mem r hm)
    simp only [convertRowsToString, openLines, splitOnNl_append_nl _ r.row hr.1,
      List.map_cons, hr.2]
    exact congrArg _ (ih hrest)

/-- Witness for the amended C8 on the two-row store ["foo", "xfoo"]. -/
theorem C8_amended_round_trip_witness :
    openLines (convertRowsToString searchDoc.rows)
      = searchDoc.rows.map (fun r => r.row) :=
  C8_amended_round_trip searchDoc.rows (by decide)

/-- C9: the modification counter is an unsigned 8-bit value: every
counter-incrementing mutation produces (dirty + 1) % 256, and any trace of
exactly 256 such increments from the clean counter 0 ends at 0 again — the
status bar then shows no "(modified)" fragment and the Ctrl-Q quit guard does
not fire, despite the unsaved changes. -/
theorem C9_dirty_wraps_mod_256 :
    (∀ (st : EditorState) (yi : Int) (s : List Char),
      (insertRow st yi s).1 = true → (insertRow st yi s).2.dirty = (st.dirty + 1) % 256) ∧
    (∀ (st : EditorState) (yi : Int), ¬(yi < 0 ∨ (st.rows.length : Int) ≤ yi) →
      (deleteRow st yi).dirty = (st.dirty + 1) % 256) ∧
    (∀ (st : EditorState) (y : Nat) (r : EditorRow) (xat : Int) (c : Char),
      st.rows[y]? = some r →
      (insertCharIntoRowAt st y xat c).dirty = (st.dirty + 1) % 256) ∧
    (∀ (st : EditorState) (y : Nat) (r : EditorRow) (s : List Char),
      st.rows[y]? = some r →
      (appendStringToRowAt st y s).dirty = (st.dirty + 1) % 256) ∧
    (∀ (st : EditorState) (y : Nat) (r : EditorRow) (xat : Int),
      st.rows[y]? = some r → ¬(xat < 0 ∨ (r.row.length : Int) ≤ xat) →
      (deleteCharFromRowAt st y xat).dirty = (st.dirty + 1) % 256) ∧
    (∀ s : Nat → Nat, s 0 = 0 → (∀ i, i < 256 → s (i + 1) = (s i + 1) % 256) →
      s 256 = 0 ∧ modifiedIndicator (s 256) = [] ∧ quitGuardActive (s 256) 3 = false) := by
  refine ⟨?_, ?_, ?_, ?_, ?_, ?_⟩
  · intro st yi s h
    unfold insertRow at h ⊢
    by_cases hc : yi < 0 ∨ (st.rows.length : Int) < yi
    · rw [if_pos hc] at h; cases h
    · rw [if_neg hc]
  · intro st yi h
    unfold deleteRow
    rw [if_neg h]
  · intro st y r xat c h
    unfold insertCharIntoRowAt
    rw [h]
  · intro st y r s h
    unfold appendStringToRowAt
    rw [h]
  · intro st y r xat h hx
    unfold deleteCharFromRowAt
    rw [h]
    dsimp only
    rw [if_neg hx]
  · intro s h0 hstep
    have key : ∀ i, i ≤ 256 → s i = i % 256 := by
      intro i
      induction i with
      | zero => intro _; exact h0
      | succ n ihn =>
        intro hle
        rw [hstep n (by omega), ihn (by omega)]
        omega
    have h256 : s 256 = 0 := by rw [key 256 (by omega)]
    refine ⟨h256, ?_, ?_⟩
    · rw [h256]; rfl
    · rw [h256]; rfl

set_option maxRecDepth 4000 in
/-- Witness for C9 at concrete operations and the canonical 256-step trace. -/
theorem C9_dirty_wraps_mod_256_witness :
    (insertRow emptyEditor 0 []).2.dirty = (emptyEditor.dirty + 1) % 256 ∧
    (deleteRow searchDoc 0).dirty = (searchDoc.dirty + 1) % 256 ∧
    (insertCharIntoRowAt searchDoc 0 0 'q').dirty = (searchDoc.dirty + 1) % 256 ∧
    (appendStringToRowAt searchDoc 0 (("z").toList)).dirty = (searchDoc.dirty + 1) % 256 ∧
    (deleteCharFromRowAt searchDoc 0 0).dirty = (searchDoc.dirty + 1) % 256 ∧
    ((fun i : Nat => i % 256) 256 = 0 ∧
      modifiedIndicator ((fun i : Nat => i % 256) 256) = [] ∧
      quitGuardActive ((fun i : Nat => i % 256) 256) 3 = false) :=
  ⟨C9_dirty_wraps_mod_256.1 emptyEditor 0 [] (by decide),
   C9_dirty_wraps_mod_256.2.1 searchDoc 0 (by decide),
   C9_dirty_wraps_mod_256.2.2.1 searchDoc 0 (searchDoc.rows.getD 0 dfltRow) 0 'q' (by decide),
   C9_dirty_wraps_mod_256.2.2.2.1 searchDoc 0 (searchDoc.rows.getD 0 dfltRow)
     (("z").toList) (by decide),
   C9_dirty_wraps_mod_256.2.2.2.2.1 searchDoc 0 (searchDoc.rows.getD 0 dfltRow) 0
     (by decide) (by decide),
   C9_dirty_wraps_mod_256.2.2.2.2.2 (fun i : Nat => i % 256) rfl (by decide)⟩

theorem map_set_invariant {α : Type} {f : EditorRow → α} {rows : List EditorRow} {y : Nat}
    {r v : EditorRow} (hy : rows[y]? = some r) (hfv : f v = f r) :
    (rows.set y v).map f = rows.map f := by
  apply List.ext_getElem?
  intro n
  rw [List.getElem?_map, List.getElem?_map]
  by_cases hn : n = y
  · subst hn
    rw [List.getElem?_set_self ((List.getElem?_eq_some.mp hy).1), hy]
    simp [hfv]
  · rw [List.getElem?_set_ne (Ne.symm hn)]

theorem cascadeGo_map {α : Type} (sy : EditorSyntax) (f : EditorRow → α)
    (hf : ∀ (r : EditorRow) (hl : List EditorHighlight) (c : Bool),
      f { r with hl := hl, hl_open_comment := c } = f r) :
    ∀ (fuel : Nat) (rows : List EditorRow) (y : Nat),
      (cascadeGo sy fuel rows y).map f = rows.map f := by
  intro fuel
  induction fuel with
  | zero => intro rows y; rfl
  | succ n ih =>
    intro rows y
    simp only [cascadeGo]
    cases hy : rows[y]? with
    | none =>
      have hylen : rows.length ≤ y := by
        by_contra hc
        rw [List.getElem?_eq_none_iff] at hy
        omega
      simp only [cascStep, hy]
      split
      · rename_i hcond
        exact absurd hcond.1 (by decide)
      · rw [List.set_eq_of_length_le hylen]
    | some r =>
      simp only [cascStep, hy]
      split
      · rw [ih]
        exact map_set_invariant hy (hf r _ _)
      · exact map_set_invariant hy (hf r _ _)

theorem updateSyntaxAt_map {α : Type} (msyn : Option EditorSyntax) (f : EditorRow → α)
    (hf : ∀ (r : EditorRow) (hl : List EditorHighlight) (c : Bool),
      f { r with hl := hl, hl_open_comment := c } = f r)
    (rows : List EditorRow) (y : Nat) :
    (updateSyntaxAt msyn rows y).map f = rows.map f := by
  cases msyn with
  | none =>
    unfold updateSyntaxAt
    cases hy : rows[y]? with
    | none => rfl
    | some r =>
      refine map_set_invariant hy ?_
      have := hf r (resizeHl r.hl r.rendered.length) r.hl_open_comment
      simpa using this
  | some sy => exact cascadeGo_map sy f hf _ rows y

theorem updateRowAt_map {α : Type} (msyn : Option EditorSyntax) (f : EditorRow → α)
    (hf : ∀ (r : EditorRow) (hl : List EditorHighlight) (c : Bool),
      f { r with hl := hl, hl_open_comment := c } = f r)
    (hf2 : ∀ (r : EditorRow) (rnd : List Char), f { r with rendered := rnd } = f r)
    (rows : List EditorRow) (y : Nat) :
    (updateRowAt msyn rows y).map f = rows.map f := by
  unfold updateRowAt
  cases hy : rows[y]? with
  | none => rfl
  | some r =>
    rw [updateSyntaxAt_map msyn f hf]
    exact map_set_invariant hy (hf2 r _)

theorem updateRowAt_map_row (msyn : Option EditorSyntax) (rows : List EditorRow) (y : Nat) :
    (updateRowAt msyn rows y).map (fun r => r.row) = rows.map (fun r => r.row) :=
  updateRowAt_map msyn (fun r => r.row) (fun _ _ _ => rfl) (fun _ _ => rfl) rows y

theorem updateRowAt_length (msyn : Option EditorSyntax) (rows : List EditorRow) (y : Nat) :
    (updateRowAt msyn rows y).length = rows.length := by
  have h := updateRowAt_map msyn (fun _ => ()) (fun _ _ _ => rfl) (fun _ _ => rfl) rows y
  have h2 := congrArg List.length h
  simpa using h2

theorem map_row_reindex (rows1 : List EditorRow) (y : Nat) (g : EditorRow → EditorRow)
    (hg : ∀ r, (g r).row = r.row) :
    (rows1.take y ++ (rows1.drop y).map g).map (fun r => r.row)
      = rows1.map (fun r => r.row) := by
  rw [List.map_append, List.map_map]
  have he : ((fun r : EditorRow => r.row) ∘ g) = fun r : EditorRow => r.row :=
    funext fun r => hg r
  rw [he, ← List.map_append, List.take_append_drop]

theorem appendStringToRowAt_unfolded (st : EditorState) (y : Nat) (s : List Char)
    {r : EditorRow} (hy : st.rows[y]? = some r) :
    appendStringToRowAt st y s
      = { st with
          rows := updateRowAt st.msyn (st.rows.set y { r with row := r.row ++ s }) y,
          dirty := (st.dirty + 1) % 256 } := by
  unfold appendStringToRowAt
  rw [hy]

theorem appendStringToRowAt_map_row (st : EditorState) (y : Nat) (s : List Char)
    {r : EditorRow} (hy : st.rows[y]? = some r) :
    (appendStringToRowAt st y s).rows.map (fun x => x.row)
      = (st.rows.map (fun x => x.row)).set y (r.row ++ s) := by
  rw [appendStringToRowAt_unfolded st y s hy]
  dsimp only
  rw [updateRowAt_map_row, List.map_set]

theorem deleteRow_unfolded (st : EditorState) (yi : Int)
    (h : ¬(yi < 0 ∨ (st.rows.length : Int) ≤ yi)) :
    deleteRow st yi
      = { st with
          rows := (st.rows.eraseIdx yi.toNat).take yi.toNat
            ++ ((st.rows.eraseIdx yi.toNat).drop yi.toNat).map
                (fun r => { r with idx := r.idx - 1 }),
          dirty := (st.dirty + 1) % 256 } := by
  unfold deleteRow
  rw [if_neg h]

theorem deleteRow_map_row (st : EditorState) (yi : Int)
    (h : ¬(yi < 0 ∨ (st.rows.length : Int) ≤ yi)) :
    (deleteRow st yi).rows.map (fun x => x.row)
      = (st.rows.map (fun x => x.row)).eraseIdx yi.toNat := by
  rw [deleteRow_unfolded st yi h]
  dsimp only
  rw [map_row_reindex (st.rows.eraseIdx yi.toNat) yi.toNat
      (fun r => { r with idx := r.idx - 1 }) (fun _ => rfl)]
  rw [List.eraseIdx_eq_take_drop_succ, List.eraseIdx_eq_take_drop_succ,
      List.map_append, List.map_take, List.map_drop]

theorem deleteRow_length (st : EditorState) (yi : Int)
    (h : ¬(yi < 0 ∨ (st.rows.length : Int) ≤ yi)) :
    (deleteRow st yi).rows.length = st.rows.length - 1 := by
  rw [deleteRow_unfolded st yi h]
  dsimp only
  have hlt : yi.toNat < st.rows.length := by omega
  have he : (st.rows.eraseIdx yi.toNat).length = st.rows.length - 1 := by
    rw [List.length_eraseIdx]
    simp [hlt]
  simp only [List.length_append, List.length_take, List.length_map, List.length_drop, he]
  omega

/-- C10: deleteChar is a strict no-op (row store, cursor, and modification
counter unchanged) when the cursor row equals the row count or when the
cursor sits at row 0 column 0; at column 0 of a row r with 0 < r < N it
appends row r's raw content to row r-1, deletes row r, and puts the cursor on
row r-1 at the buffer column that was row r-1's raw length before the
append. -/
theorem C10_deleteChar (st : EditorState) :
    (st.cy = st.rows.length → deleteChar st = st) ∧
    (st.cx = 0 → st.cy = 0 → deleteChar st = st) ∧
    (st.cx = 0 → 0 < st.cy → st.cy < st.rows.length →
      (deleteChar st).rows.map (fun r => r.row)
          = ((st.rows.map (fun r => r.row)).set (st.cy - 1)
              ((st.rows.getD (st.cy - 1) dfltRow).row
                ++ (st.rows.getD st.cy dfltRow).row)).eraseIdx st.cy
        ∧ (deleteChar st).cy = st.cy - 1
        ∧ (deleteChar st).cx = (st.rows.getD (st.cy - 1) dfltRow).row.length
        ∧ (deleteChar st).rows.length = st.rows.length - 1) := by
  refine ⟨?_, ?_, ?_⟩
  · intro h
    unfold deleteChar
    rw [if_pos h]
  · intro h1 h2
    unfold deleteChar
    by_cases hcyl : st.cy = st.rows.length
    · rw [if_pos hcyl]
    · rw [if_neg hcyl, if_pos ⟨h1, h2⟩]
  · intro h1 h2 h3
    have hcy : ¬(st.cy = st.rows.length) := by omega
    have hprev : st.cy - 1 < st.rows.length := by omega
    have hyPrev : st.rows[st.cy - 1]? = some (st.rows.getD (st.cy - 1) dfltRow) := by
      simp [List.getD_eq_getElem?_getD, List.getElem?_eq_getElem hprev]
    have hlen1 : (appendStringToRowAt st (st.cy - 1)
        ((st.rows.getD st.cy dfltRow).row)).rows.length = st.rows.length := by
      rw [appendStringToRowAt_unfolded st _ _ hyPrev]
      dsimp only
      rw [updateRowAt_length, List.length_set]
    have hvalid : ¬((st.cy : Int) < 0 ∨
        (((appendStringToRowAt st (st.cy - 1)
          ((st.rows.getD st.cy dfltRow).row)).rows.length : Int) ≤ (st.cy : Int))) := by
      rw [hlen1]
      omega
    unfold deleteChar
    rw [if_neg hcy, if_neg (by omega : ¬(st.cx = 0 ∧ st.cy = 0)),
        if_neg (by omega : ¬(0 < st.cx))]
    dsimp only
    refine ⟨?_, rfl, rfl, ?_⟩
    · rw [deleteRow_map_row _ _ hvalid,
          appendStringToRowAt_map_row st (st.cy - 1) _ hyPrev]
      simp
    · rw [deleteRow_length _ _ hvalid, hlen1]

/-- Witness for C10 on the two-row document ["foo", "xfoo"] with the cursor at
column 0 of row 1. -/
theorem C10_deleteChar_witness :
    (({ searchDoc with cx := 0, cy := 1 } : EditorState).cx = 0) ∧
    (deleteChar { searchDoc with cx := 0, cy := 1 }).cy = 0 := by
  refine ⟨rfl, ?_⟩
  have h := (C10_deleteChar { searchDoc with cx := 0, cy := 1 }).2.2
    rfl (by decide) (by decide)
  exact h.2.1

theorem ctg_append :
    ∀ (l1 l2 : List Nat) (k : Nat), ctg k (l1 ++ l2) = (ctg k l1 && ctg (k + l1.length) l2) := by
  intro l1
  induction l1 with
  | nil => intro l2 k; simp [ctg]
  | cons n rest ih =>
    intro l2 k
    simp only [List.cons_append, ctg, List.length_cons, List.append_eq]
    rw [ih l2 (k + 1), Bool.and_assoc]
    have he : k + 1 + rest.length = k + (rest.length + 1) := by omega
    rw [he]

theorem ctg_shift_up :
    ∀ (l : List Nat) (k : Nat), ctg (k + 1) (l.map (fun n => n + 1)) = ctg k l := by
  intro l
  induction l with
  | nil => intro k; rfl
  | cons n rest ih =>
    intro k
    have hb : ((n + 1 == k + 1) : Bool) = (n == k) := by
      by_cases h : n = k <;> simp [h]
    simp only [List.map_cons, ctg, hb, ih (k + 1)]

theorem ctg_shift_down :
    ∀ (l : List Nat) (k : Nat), ctg (k + 1) l = true → ctg k (l.map (fun n => n - 1)) = true := by
  intro l
  induction l with
  | nil => intro k _; rfl
  | cons n rest ih =>
    intro k h
    simp only [ctg, Bool.and_eq_true, beq_iff_eq] at h
    simp only [List.map_cons, ctg, Bool.and_eq_true, beq_iff_eq]
    exact ⟨by omega, ih (k + 1) h.2⟩

theorem updateRowAt_map_idx (msyn : Option EditorSyntax) (rows : List EditorRow) (y : Nat) :
    (updateRowAt msyn rows y).map (fun r => r.idx) = rows.map (fun r => r.idx) :=
  updateRowAt_map msyn (fun r => r.idx) (fun _ _ _ => rfl) (fun _ _ => rfl) rows y

theorem map_idx_bump (l : List EditorRow) :
    (l.map (fun r => { r with idx := r.idx + 1 })).map (fun r => r.idx)
      = (l.map (fun r => r.idx)).map (fun n => n + 1) := by
  rw [List.map_map, List.map_map]
  rfl

theorem map_idx_dec (l : List EditorRow) :
    (l.map (fun r => { r with idx := r.idx - 1 })).map (fun r => r.idx)
      = (l.map (fun r => r.idx)).map (fun n => n - 1) := by
  rw [List.map_map, List.map_map]
  rfl

theorem insertRow_unfolded (st : EditorState) (yi : Int) (s : List Char)
    (h : ¬(yi < 0 ∨ (st.rows.length : Int) < yi)) :
    insertRow st yi s = (true,
      { st with
          rows := updateRowAt st.msyn
            ((st.rows.take yi.toNat ++ [newRowAt yi.toNat s]
                ++ st.rows.drop yi.toNat).take (yi.toNat + 1)
              ++ ((st.rows.take yi.toNat ++ [newRowAt yi.toNat s]
                ++ st.rows.drop yi.toNat).drop (yi.toNat + 1)).map
                  (fun r => { r with idx := r.idx + 1 })) yi.toNat,
          dirty := (st.dirty + 1) % 256 }) := by
  unfold insertRow
  rw [if_neg h]

theorem insertRow_contig (st : EditorState) (yi : Int) (s : List Char)
    (h : ¬(yi < 0 ∨ (st.rows.length : Int) < yi))
    (hctg : idxContiguous st.rows = true) :
    idxContiguous (insertRow st yi s).2.rows = true := by
  rw [insertRow_unfolded st yi s h]
  have hyle : yi.toNat ≤ st.rows.length := by omega
  have hAlen : (st.rows.take yi.toNat).length = yi.toNat := List.length_take_of_le hyle
  have hT1 : ((st.rows.take yi.toNat ++ [newRowAt yi.toNat s])
        ++ st.rows.drop yi.toNat).take (yi.toNat + 1)
      = st.rows.take yi.toNat ++ [newRowAt yi.toNat s] :=
    List.take_left' (by simp [hAlen])
  have hT2 : ((st.rows.take yi.toNat ++ [newRowAt yi.toNat s])
        ++ st.rows.drop yi.toNat).drop (yi.toNat + 1) = st.rows.drop yi.toNat :=
    List.drop_left' (by simp [hAlen])
  unfold idxContiguous at hctg ⊢
  dsimp only
  rw [updateRowAt_map_idx, hT1, hT2, List.map_append, List.map_append, map_idx_bump,
      ctg_append, ctg_append]
  rw [show st.rows = st.rows.take yi.toNat ++ st.rows.drop yi.toNat from
        (List.take_append_drop yi.toNat st.rows).symm, List.map_append, ctg_append] at hctg
  simp only [Bool.and_eq_true, List.length_map, List.length_append, List.length_cons,
    List.length_nil, hAlen, Nat.zero_add] at hctg ⊢
  refine ⟨⟨hctg.1, ?_⟩, ?_⟩
  · simp [ctg, newRowAt, mkEditorRow]
  · rw [ctg_shift_up]
    exact hctg.2

theorem deleteRow_contig (st : EditorState) (yi : Int)
    (h : ¬(yi < 0 ∨ (st.rows.length : Int) ≤ yi))
    (hctg : idxContiguous st.rows = true) :
    idxContiguous (deleteRow st yi).rows = true := by
  rw [deleteRow_unfolded st yi h]
  have hylt : yi.toNat < st.rows.length := by omega
  have hAlen : (st.rows.take yi.toNat).length = yi.toNat := List.length_take_of_le (by omega)
  have he : st.rows.eraseIdx yi.toNat = st.rows.take yi.toNat ++ st.rows.drop (yi.toNat + 1) :=
    List.eraseIdx_eq_take_drop_succ ..
  have hT1 : (st.rows.eraseIdx yi.toNat).take yi.toNat = st.rows.take yi.toNat := by
    rw [he]; exact List.take_left' hAlen
  have hT2 : (st.rows.eraseIdx yi.toNat).drop yi.toNat = st.rows.drop (yi.toNat + 1) := by
    rw [he]; exact List.drop_left' hAlen
  unfold idxContiguous at hctg ⊢
  dsimp only
  rw [hT1, hT2, List.map_append, map_idx_dec, ctg_append]
  rw [show st.rows = st.rows.take yi.toNat ++ st.rows.drop yi.toNat from
        (List.take_append_drop yi.toNat st.rows).symm, List.map_append, ctg_append,
      List.drop_eq_getElem_cons hylt] at hctg
  simp only [Bool.and_eq_true, List.length_map, hAlen, List.map_cons, ctg, beq_iff_eq,
    Nat.zero_add] at hctg
  simp only [Bool.and_eq_true, List.length_map, hAlen, Nat.zero_add]
  exact ⟨hctg.1, ctg_shift_down _ yi.toNat hctg.2.2⟩

/-- C5: insertRow fails, mutating nothing, exactly when the position is
outside [0, N]; deleteRow is a strict no-op exactly when the position is
outside [0, N); on valid positions insertRow inserts the raw text at the
position, grows the store by one row, keeps the idx fields contiguous 0..N,
increments the modification counter mod 256 and changes the state, and
deleteRow removes the raw text at the position, shrinks the store by one,
keeps the idx fields contiguous, and increments the modification counter. -/
theorem C5_insert_delete_row (st : EditorState) (yi : Int) (s : List Char) :
    ((insertRow st yi s).1 = false ↔ (yi < 0 ∨ (st.rows.length : Int) < yi)) ∧
    ((yi < 0 ∨ (st.rows.length : Int) < yi) → (insertRow st yi s).2 = st) ∧
    (¬(yi < 0 ∨ (st.rows.length : Int) < yi) →
      (insertRow st yi s).2.rows.map (fun r => r.row)
          = (st.rows.map (fun r => r.row)).take yi.toNat
            ++ s :: (st.rows.map (fun r => r.row)).drop yi.toNat
        ∧ (insertRow st yi s).2.rows.length = st.rows.length + 1
        ∧ (insertRow st yi s).2.dirty = (st.dirty + 1) % 256
        ∧ (idxContiguous st.rows = true → idxContiguous (insertRow st yi s).2.rows = true)
        ∧ (insertRow st yi s).2 ≠ st) ∧
    ((deleteRow st yi = st) ↔ (yi < 0 ∨ (st.rows.length : Int) ≤ yi)) ∧
    (¬(yi < 0 ∨ (st.rows.length : Int) ≤ yi) →
      (deleteRow st yi).rows.map (fun r => r.row)
          = (st.rows.map (fun r => r.row)).eraseIdx yi.toNat
        ∧ (deleteRow st yi).rows.length = st.rows.length - 1
        ∧ (deleteRow st yi).dirty = (st.dirty + 1) % 256
        ∧ (idxContiguous st.rows = true → idxContiguous (deleteRow st yi).rows = true)) := by
  have hyle : ∀ h : ¬(yi < 0 ∨ (st.rows.length : Int) < yi), yi.toNat ≤ st.rows.length :=
    fun h => by omega
  refine ⟨?_, ?_, ?_, ?_, ?_⟩
  · by_cases hc : yi < 0 ∨ (st.rows.length : Int) < yi
    · unfold insertRow; rw [if_pos hc]; simpa using hc
    · unfold insertRow; rw [if_neg hc]; simpa using hc
  · intro hc; unfold insertRow; rw [if_pos hc]
  · intro h
    have hlen : (insertRow st yi s).2.rows.length = st.rows.length + 1 := by
      rw [insertRow_unfolded st yi s h]
      dsimp only
      rw [updateRowAt_length]
      simp only [List.length_append, List.length_take, List.length_map, List.length_drop,
        List.length_cons, List.length_nil]
      have := hyle h
      omega
    refine ⟨?_, hlen, ?_, insertRow_contig st yi s h, ?_⟩
    · rw [insertRow_unfolded st yi s h]
      dsimp only
      have hAlen : (st.rows.take yi.toNat).length = yi.toNat := List.length_take_of_le (hyle h)
      have hT1 : ((st.rows.take yi.toNat ++ [newRowAt yi.toNat s])
            ++ st.rows.drop yi.toNat).take (yi.toNat + 1)
          = st.rows.take yi.toNat ++ [newRowAt yi.toNat s] :=
        List.take_left' (by simp [hAlen])
      have hT2 : ((st.rows.take yi.toNat ++ [newRowAt yi.toNat s])
            ++ st.rows.drop yi.toNat).drop (yi.toNat + 1) = st.rows.drop yi.toNat :=
        List.drop_left' (by simp [hAlen])
      rw [updateRowAt_map_row, hT1, hT2]
      have hbump : (List.map (fun r => { r with idx := r.idx + 1 }) (st.rows.drop yi.toNat)).map
            (fun r => r.row) = (st.rows.drop yi.toNat).map (fun r => r.row) := by
        rw [List.map_map]; rfl
      rw [List.map_append, List.map_append, hbump, List.map_take, List.map_drop]
      simp [newRowAt, mkEditorRow]
    · rw [insertRow_unfolded st yi s h]
    · intro heq
      have h2 := congrArg (fun x : EditorState => x.rows.length) heq
      dsimp only at h2
      rw [hlen] at h2
      omega
  · constructor
    · intro heq
      by_contra hc
      have h2 := congrArg (fun x : EditorState => x.rows.length) heq
      dsimp only at h2
      rw [deleteRow_length st yi hc] at h2
      omega
    · intro hc; unfold deleteRow; rw [if_pos hc]
  · intro h
    refine ⟨deleteRow_map_row st yi h, deleteRow_length st yi h, ?_,
      deleteRow_contig st yi h⟩
    rw [deleteRow_unfolded st yi h]

/-- Witness for C5 on the two-row document at position 1. -/
theorem C5_insert_delete_row_witness :
    ((insertRow searchDoc 3 []).1 = false ↔ ((3 : Int) < 0 ∨ (searchDoc.rows.length : Int) < 3)) ∧
    (¬((1 : Int) < 0 ∨ (searchDoc.rows.length : Int) ≤ 1) →
      (deleteRow searchDoc 1).rows.map (fun r => r.row)
          = (searchDoc.rows.map (fun r => r.row)).eraseIdx (1 : Int).toNat
        ∧ (deleteRow searchDoc 1).rows.length = searchDoc.rows.length - 1
        ∧ (deleteRow searchDoc 1).dirty = (searchDoc.dirty + 1) % 256
        ∧ (idxContiguous searchDoc.rows = true →
            idxContiguous (deleteRow searchDoc 1).rows = true)) :=
  ⟨(C5_insert_delete_row searchDoc 3 []).1,
   (C5_insert_delete_row searchDoc 1 []).2.2.2.2⟩

theorem getD_set_ne_row (rows : List EditorRow) (y j : Nat) (v : EditorRow) (h : j ≠ y) :
    ((rows.set y v).getD j dfltRow) = rows.getD j dfltRow := by
  simp [List.getD_eq_getElem?_getD, List.getElem?_set_ne (Ne.symm h)]

theorem getD_of_some {rows : List EditorRow} {j : Nat} {r : EditorRow}
    (hj : rows[j]? = some r) : rows.getD j dfltRow = r := by
  simp [List.getD_eq_getElem?_getD, hj]

theorem getD_congr_row {l1 l2 : List EditorRow} {j : Nat} (h : l1[j]? = l2[j]?) :
    l1.getD j dfltRow = l2.getD j dfltRow := by
  simp only [List.getD_eq_getElem?_getD, h]

theorem inc_eq_of_prev_eq {res rows : List EditorRow} (y : Nat)
    (h : ∀ m, m < y → res.getD m dfltRow = rows.getD m dfltRow) :
    (decide (y > 0) && (res.getD (y - 1) dfltRow).hl_open_comment)
      = (decide (y > 0) && (rows.getD (y - 1) dfltRow).hl_open_comment) := by
  cases y with
  | zero => rfl
  | succ m => simp only [Nat.add_sub_cancel, h m (by omega)]

theorem cascadeGo_spec (sy : EditorSyntax) :
    ∀ (fuel : Nat) (rows : List EditorRow) (y : Nat),
      rows.length = y + fuel → y < rows.length →
      ((cascStep sy rows y).2 = false →
          cascadeGo sy fuel rows y = rows.set y (cascStep sy rows y).1)
      ∧ ∃ k, y ≤ k ∧ k < rows.length
          ∧ (∀ j, j < y ∨ k < j → (cascadeGo sy fuel rows y)[j]? = rows[j]?)
          ∧ (∀ j, y ≤ j → j ≤ k → propagatedAt sy rows (cascadeGo sy fuel rows y) j)
          ∧ (k = rows.length - 1
              ∨ ((cascadeGo sy fuel rows y).getD k dfltRow).hl_open_comment
                = (rows.getD k dfltRow).hl_open_comment)
          ∧ (∀ j, y ≤ j → j < k →
              ((cascadeGo sy fuel rows y).getD j dfltRow).hl_open_comment
                ≠ (rows.getD j dfltRow).hl_open_comment)
          ∧ ((cascStep sy rows y).2 = false → k = y) := by
  intro fuel
  induction fuel with
  | zero => intro rows y hlen hy; omega
  | succ n ih =>
    intro rows y hlen hy
    obtain ⟨r0, hy0⟩ : ∃ r, rows[y]? = some r := ⟨_, List.getElem?_eq_getElem hy⟩
    simp only [cascadeGo]
    by_cases hcond : (cascStep sy rows y).2 = true ∧ y + 1 < rows.length
    · rw [if_pos hcond]
      have hlen1 : (rows.set y (cascStep sy rows y).1).length = rows.length :=
        List.length_set ..
      obtain ⟨-, k, hk1, hk2, hframe, hprop, hterm, hmin, -⟩ :=
        ih (rows.set y (cascStep sy rows y).1) (y + 1)
          (by rw [hlen1]; omega) (by rw [hlen1]; omega)
      have hresy : (cascadeGo sy n (rows.set y (cascStep sy rows y).1) (y + 1))[y]?
          = some (cascStep sy rows y).1 := by
        rw [hframe y (Or.inl (by omega)), List.getElem?_set_self hy]
      constructor
      · intro hfalse
        rw [hfalse] at hcond
        cases hcond.1
      · refine ⟨k, by omega, by rwa [hlen1] at hk2, ?_, ?_, ?_, ?_, ?_⟩
        · intro j hj
          have h1 : (cascadeGo sy n (rows.set y (cascStep sy rows y).1) (y + 1))[j]?
              = (rows.set y (cascStep sy rows y).1)[j]? := by
            refine hframe j ?_
            rcases hj with hj | hj
            · exact Or.inl (by omega)
            · exact Or.inr hj
          rw [h1, List.getElem?_set_ne (by omega)]
        · intro j hj1 hj2
          by_cases hjy : j = y
          · subst hjy
            refine ⟨r0, hy0, ?_⟩
            rw [hresy]
            have hprev : ∀ m, m < j →
                (cascadeGo sy n (rows.set j (cascStep sy rows j).1) (j + 1)).getD m dfltRow
                  = rows.getD m dfltRow := by
              intro m hm
              rw [getD_congr_row (hframe m (Or.inl (by omega))),
                  getD_set_ne_row rows j m _ (by omega)]
            have hinceq := inc_eq_of_prev_eq j hprev
            simp only [cascStep, hy0] at hinceq ⊢
            rw [hinceq]
          · have hp := hprop j (by omega) hj2
            obtain ⟨r, hr1, hr2⟩ := hp
            rw [List.getElem?_set_ne (by omega : y ≠ j)] at hr1
            exact ⟨r, hr1, hr2⟩
        · rcases hterm with hterm | hterm
          · left; rw [hlen1] at hterm; exact hterm
          · right
            rw [hterm, getD_set_ne_row rows y k _ (by omega)]
        · intro j hj1 hj2
          by_cases hjy : j = y
          · subst hjy
            rw [getD_of_some hresy, getD_of_some hy0]
            have hne : r0.hl_open_comment
                ≠ (scanRow sy r0.rendered r0.hl
                    (decide (j > 0) && (rows.getD (j - 1) dfltRow).hl_open_comment)).2 := by
              have h1 := hcond.1
              simp only [cascStep, hy0, decide_eq_true_eq] at h1
              exact h1
            simp only [cascStep, hy0]
            exact Ne.symm hne
          · have h1 := hmin j (by omega) hj2
            rw [getD_set_ne_row rows y j _ (by omega)] at h1
            exact h1
        · intro hfalse
          rw [hfalse] at hcond
          cases hcond.1
    · rw [if_neg hcond]
      have hset : (rows.set y (cascStep sy rows y).1)[y]? = some (cascStep sy rows y).1 :=
        List.getElem?_set_self hy
      constructor
      · intro _; rfl
      · refine ⟨y, le_refl y, hy, ?_, ?_, ?_, ?_, fun _ => rfl⟩
        · intro j hj
          exact List.getElem?_set_ne (by omega)
        · intro j hj1 hj2
          have hjy : j = y := by omega
          subst hjy
          refine ⟨r0, hy0, ?_⟩
          rw [hset]
          have hprev : ∀ m, m < j →
              (rows.set j (cascStep sy rows j).1).getD m dfltRow = rows.getD m dfltRow :=
            fun m hm => getD_set_ne_row rows j m _ (by omega)
          have hinceq := inc_eq_of_prev_eq j hprev
          simp only [cascStep, hy0] at hinceq ⊢
          rw [hinceq]
        · by_cases hk : y + 1 < rows.length
          · have hfalse : (cascStep sy rows y).2 = false := by
              rcases Bool.eq_false_or_eq_true (cascStep sy rows y).2 with ht | hf
              · exact absurd ⟨ht, hk⟩ hcond
              · exact hf
            right
            rw [getD_of_some hset, getD_of_some hy0]
            simp only [cascStep, hy0, decide_eq_true_eq] at hfalse ⊢
            have := of_decide_eq_false hfalse
            simp only [ne_eq, Decidable.not_not] at this
            exact this.symm
          · left; omega
        · intro j h1 h2; omega

/-- C4: for a single-row recomputation at row y (as triggered by any
single-row edit through updateRow), if the row's outgoing continuation flag
is unchanged the cascade touches only row y and every subsequent row's tags
are unchanged; if the flag changes, exactly the minimal contiguous suffix of
rows from y up to the first row whose outgoing flag does not change (or the
last row) is re-highlighted with the propagated incoming flag, and all rows
outside that range are unchanged. -/
theorem C4_cascade_frame (sy : EditorSyntax) (rows : List EditorRow) (y : Nat)
    (hy : y < rows.length) : CascadeSpec sy rows y := by
  obtain ⟨h1, k, hk1, hk2, hframe, hprop, hterm, hmin, hky⟩ :=
    cascadeGo_spec sy (rows.length - y) rows y (by omega) hy
  constructor
  · intro hfalse
    refine ⟨h1 hfalse, ?_⟩
    intro j hj
    show (cascadeGo sy (rows.length - y) rows y)[j]? = rows[j]?
    rw [h1 hfalse]
    exact List.getElem?_set_ne (Ne.symm hj)
  · intro _
    exact ⟨k, hk1, hk2, hframe, hprop, hterm, hmin⟩

/-- Witness for C4 on the three-row C document at row 0. -/
theorem C4_cascade_frame_witness : CascadeSpec cSyntax mlDoc.rows 0 :=
  C4_cascade_frame cSyntax mlDoc.rows 0 (by decide)

/-- C7: with keyword list ["if", "int|"] and row "integer if(x)", the scan
tags no character of "integer" (the candidate "int" is not followed by a
separator) and tags exactly the two characters of "if" KEYWORD1 (a separator
'\x28' follows); and on aliased entries sharing a start position the first
keyword in configured list order wins. -/
theorem C7_keyword_separator_boundary :
    (scanRow kwScenarioSyntax (("integer if(x)").toList) [] false).1
      = [EditorHighlight.NORMAL, .NORMAL, .NORMAL, .NORMAL, .NORMAL, .NORMAL, .NORMAL, .NORMAL,
         .KEYWORD1, .KEYWORD1, .NORMAL, .NORMAL, .NORMAL]
    ∧ findKw (("if(").toList) 0 [("if").toList, ("if|").toList] = some (2, false) := by
  decide

/-- C2 (evaluation at the failing input): on rows ["foo", "xfoo"] with
lastMatch = 0 and forward direction, an ARROW_DOWN keystroke with query "foo"
should per the claim scan from row 1 and act wholly on row 1 (cursor column
renderColumnToBufferColumn(row 1, 1) = 1, snapshot and MATCH overlay on
row 1).  The code instead examines the rows in sequential order: it finds the
query in row 0, paints the MATCH overlay over row 0's tags and snapshots row
0's tags, while setting the cursor row, lastMatch and the snapshot line to the
separately advanced wrapped index 1 and the cursor column from row 1 at row
0's offset 0. -/
theorem C2_sequential_scan_eval :
    searchResult.cy = 1 ∧ searchResult.cx = 0 ∧ searchResult.lastMatch = 1 ∧
    searchResult.savedHlLine = 1 ∧
    (searchResult.rows.getD 0 dfltRow).hl = [.MATCH, .MATCH, .MATCH] ∧
    (searchResult.rows.getD 1 dfltRow).hl = [.NORMAL, .NORMAL, .NORMAL, .NORMAL] ∧
    searchResult.savedHl = [.NORMAL, .NORMAL, .NORMAL] ∧
    strFind ((searchDoc.rows.getD 1 dfltRow).rendered) (("foo").toList) = some 1 ∧
    convertRowRxToCx (("xfoo").toList) 1 = 1 := by
  decide

/-- C3 (counterexample): under the number-only profile, the document "123" is
tagged all NUMBER; after deleting the '1' and inserting 'a' at column 0 the
row text is "a23" with unchanged rendered length, and position 0 — where no
rule applies, as the freshly created "a23" row (all NORMAL) shows — retains
the stale NUMBER tag instead of the NORMAL the claim requires (the resize in
updateSyntax keeps surviving entries and the default branch never writes). -/
theorem C3_stale_tag_counterexample :
    (staleEdited.rows.getD 0 dfltRow).row = ("a23").toList ∧
    (staleEdited.rows.getD 0 dfltRow).rendered = ("a23").toList ∧
    (staleEdited.rows.getD 0 dfltRow).hl = [.NUMBER, .NUMBER, .NUMBER] ∧
    (freshDoc.rows.getD 0 dfltRow).rendered = ("a23").toList ∧
    (freshDoc.rows.getD 0 dfltRow).hl = [.NORMAL, .NORMAL, .NORMAL] := by
  decide

/-- C3 (amended): the scan never writes NORMAL, so a position whose resulting
tag is NORMAL carries it over from the pre-scan array (the old tags resized to
the rendered length, new cells defaulting to NORMAL); a position the rules
leave untouched retains its pre-edit tag, which is NORMAL on a freshly
created row but the stale pre-edit tag after a length-preserving edit. -/
theorem C3_amended_normal_only_retained (sy : EditorSyntax) (rendered : List Char)
    (oldHl : List EditorHighlight) (inc : Bool) (j : Nat) :
    (scanRow sy rendered oldHl inc).1.getD j EditorHighlight.NORMAL
        = (resizeHl oldHl rendered.length).getD j EditorHighlight.NORMAL
      ∨ (scanRow sy rendered oldHl inc).1.getD j EditorHighlight.NORMAL
        ≠ EditorHighlight.NORMAL :=
  scanLoop_normal_origin sy rendered (2 * rendered.length + 2)
    { i := 0, prevSep := true, inString := none, inComment := inc,
      hl := resizeHl oldHl rendered.length } j

/-- C6 (counterexample): convertRowCxToRx performs no clamping: on the
one-character row "a" with requested buffer column 2 it returns render column
2, beyond the rendered length 1 (the claimed clamp would return 1); the
companion conversion convertRowRxToCx does clamp (render column 5 maps to the
row length 1). -/
theorem C6_cx_to_rx_no_clamp_counterexample :
    convertRowCxToRx (("a").toList) 2 = 2 ∧ (renderText (("a").toList)).length = 1 ∧
    convertRowRxToCx (("a").toList) 5 = 1 := by
  decide

theorem rxToCxGo_le (rx : Nat) :
    ∀ (l : List Char) (cur cx : Nat), rxToCxGo rx l cur cx ≤ cx + l.length := by
  intro l
  induction l with
  | nil => intro cur cx; simp [rxToCxGo]
  | cons c rest ih =>
    intro cur cx
    simp only [rxToCxGo]
    split <;> split
    · simp
    · have h2 := ih (cur + (8 - cur % 8)) (cx + 1)
      simp only [List.length_cons]
      omega
    · simp
    · have h2 := ih (cur + 1) (cx + 1)
      simp only [List.length_cons]
      omega

theorem cxToRx_step (row : List Char) (n : Nat) (h : row.length ≤ n) :
    convertRowCxToRx row (n + 1) = convertRowCxToRx row n + 1 := by
  unfold convertRowCxToRx
  rw [List.range_succ, List.foldl_append]
  simp only [List.foldl_cons, List.foldl_nil]
  unfold charAt
  rw [List.getD_eq_default _ _ h, if_neg (by decide)]

theorem cxToRx_add (row : List Char) :
    ∀ d : Nat, convertRowCxToRx row (row.length + d)
      = convertRowCxToRx row row.length + d := by
  intro d
  induction d with
  | zero => simp
  | succ n ih =>
    rw [show row.length + (n + 1) = (row.length + n) + 1 from rfl,
        cxToRx_step row _ (by omega), ih]
    omega

/-- C6 (amended): convertRowRxToCx clamps every out-of-range render column to
the row's raw length, while convertRowCxToRx does not clamp: past the row's
raw length every further requested buffer column advances the render column
by exactly one (the walk reads the null padding, which is not a tab). -/
theorem C6_amended_conversions :
    (∀ (row : List Char) (rx : Nat), convertRowRxToCx row rx ≤ row.length) ∧
    (∀ (row : List Char) (cx : Nat), row.length ≤ cx →
      convertRowCxToRx row cx
        = convertRowCxToRx row row.length + (cx - row.length)) := by
  constructor
  · intro row rx
    simpa using rxToCxGo_le rx row 0 0
  · intro row cx h
    have h2 := cxToRx_add row (cx - row.length)
    rwa [Nat.add_sub_cancel' h] at h2

/-- Witness for the amended C6 on the row "a" with columns 5 and 3. -/
theorem C6_amended_conversions_witness :
    convertRowRxToCx (("a").toList) 5 ≤ (("a").toList).length ∧
    (("a").toList).length ≤ 3 ∧
    convertRowCxToRx (("a").toList) 3
      = convertRowCxToRx (("a").toList) ((("a").toList).length)
        + (3 - (("a").toList).length) :=
  ⟨C6_amended_conversions.1 (("a").toList) 5, by decide,
   C6_amended_conversions.2 (("a").toList) 3 (by decide)⟩

/-- C8 (counterexample): a row store whose single row's raw content is "a\r"
does not round-trip: save joins it to "a\r\n" and open strips the trailing
carriage return, reloading the row as "a". -/
theorem C8_trailing_cr_counterexample :
    openLines (convertRowsToString [{ dfltRow with row := ("a\r").toList }]) = [("a").toList] ∧
    ("a").toList ≠ ("a\r").toList := by
  decide

end Kilo
